import Mathlib

/-!
Shallow embedding of `phaster.py`, a utility script that submits genome
FASTA files to the PHASTER web API, tracks job ids in a tab-separated
ledger file, polls job status, and downloads result archives.

Files are modelled as lists of lines (strings without the trailing
newline), the filesystem as a record of created directories and written
files, HTTP responses as records carrying a status code, a JSON object
(an association list of string fields) and a raw body, and Python
exceptions as an explicit error type threaded through `Except`.
-/

namespace Phaster

/-! ## Python string primitives -/

/-- The whitespace characters removed by Python's `str.strip()` (ASCII part). -/
def pyWs (c : Char) : Bool :=
  c == ' ' || c == '\t' || c == '\n' || c == '\r' || c == '\x0b' || c == '\x0c'

/-- `str.strip()` on a character list: drop whitespace from both ends. -/
def stripChars (cs : List Char) : List Char :=
  ((cs.dropWhile pyWs).reverse.dropWhile pyWs).reverse

/-- Python `line.split("\t")`: split on every tab, keeping empty pieces;
the empty string yields `[""]`. -/
def splitTab : List Char → List (List Char)
  | [] => [[]]
  | c :: cs =>
    if c == '\t' then [] :: splitTab cs
    else
      match splitTab cs with
      | [] => [[c]]
      | p :: ps => (c :: p) :: ps

/-- Inverse of `splitTab`: interleave the pieces with tab characters. -/
def joinTab : List (List Char) → List Char
  | [] => []
  | [p] => p
  | p :: ps => p ++ '\t' :: joinTab ps

/-- Does `needle` occur at the head of `hay`? -/
def leadsChars : List Char → List Char → Bool
  | [], _ => true
  | _ :: _, [] => false
  | a :: as, b :: bs => a == b && leadsChars as bs

/-- Python's substring test `needle in hay`. -/
def hasSub (hay needle : String) : Bool :=
  go hay.data
where
  go : List Char → Bool
    | [] => leadsChars needle.data []
    | c :: cs => leadsChars needle.data (c :: cs) || go cs

/-- Python `query_filename.split(".")[0]`: the text before the first dot. -/
def queryBasename (query_filename : String) : String :=
  ⟨query_filename.data.takeWhile (fun c => c != '.')⟩

/-- `os.path.basename`: the text after the last slash. -/
def pyBasename (s : String) : String :=
  ⟨(s.data.reverse.takeWhile (fun c => c != '/')).reverse⟩

/-! ## Data model: exceptions, ledger, HTTP, filesystem -/

/-- The Python exceptions the script can raise or observe:
a `KeyError` on a missing JSON field, a `ValueError` on unpacking a
ledger line that does not split into four fields, and the `IOError`
raised when the zip fetch fails. -/
inductive PyExc
  | missingField (key : String)
  | malformedRecord (line : String)
  | downloadError (zipUrl : String)
  | runtimeError (msg : String)
deriving DecidableEq, Repr

/-- Timestamps (`datetime.datetime.now()`) are opaque tokens; the ledger
stores them as text, so a string suffices. -/
abbrev Timestamp := String

/-- A ledger value: (filename, status, date), keyed by job id. -/
abbrev Record := String × String × String

/-- The in-memory ledger: a Python dict as an insertion-ordered
association list with unique keys. -/
abbrev Db := List (String × Record)

/-- Python `db[job_id] = value`: update in place if the key exists,
otherwise append at the end. -/
def dbInsert (db : Db) (k : String) (v : Record) : Db :=
  if db.any (fun p => p.1 == k) then
    db.map (fun p => if p.1 == k then (k, v) else p)
  else db ++ [(k, v)]

/-- Python `db.get(job_id)`. -/
def dbGet (db : Db) (k : String) : Option Record :=
  (db.find? (fun p => p.1 == k)).map (fun p => p.2)

/-- One line of `read_database`:
`filename, job_id, status, date = line.strip().split("\t")`,
raising `ValueError` (a malformed record) unless there are exactly four
fields. -/
def parseLine (line : String) : Except PyExc (String × String × String × String) :=
  match splitTab (stripChars line.data) with
  | [f, j, s, d] => .ok (⟨f⟩, ⟨j⟩, ⟨s⟩, ⟨d⟩)
  | _ => .error (.malformedRecord line)

/-- The loop of `read_database` over the lines of the file, accumulating
`db[job_id] = (filename, status, date)`. -/
def read_database_lines : List String → Db → Except PyExc Db
  | [], db => .ok db
  | line :: rest, db =>
    match parseLine line with
    | .error e => .error e
    | .ok (f, j, s, d) => read_database_lines rest (dbInsert db j (f, s, d))

/-- `read_database`: `none` models a missing file.  Returns the file's
content after the call (a missing file is created empty) and the parsed
ledger. -/
def read_database (file : Option (List String)) : List String × Except PyExc Db :=
  match file with
  | some lines => (lines, read_database_lines lines [])
  | none => ([], .ok [])

/-- One line written by `write_database`:
`"{}\t{}\t{}\t{}".format(filename, job_id, status, date)`. -/
def writeLine (job_id : String) (r : Record) : String :=
  r.1 ++ "\t" ++ job_id ++ "\t" ++ r.2.1 ++ "\t" ++ r.2.2

/-- `write_database`: one line per ledger entry, in mapping order. -/
def write_database (db : Db) : List String :=
  db.map (fun p => writeLine p.1 p.2)

/-- An HTTP response: status code, parsed JSON object (an association
list of string fields), and the raw body (used for the zip download). -/
structure HttpResponse where
  status_code : Nat
  json : List (String × String)
  content : String
deriving DecidableEq, Repr

/-- Field lookup in a JSON object (`r_dict["key"]` / `"key" in r_dict`). -/
def jsonGet (j : List (String × String)) (k : String) : Option String :=
  (j.find? (fun p => p.1 == k)).map (fun p => p.2)

/-- The local filesystem state: directories created and files written. -/
structure FS where
  dirs : List String
  files : List (String × String)
deriving DecidableEq, Repr

/-- Output path of the summary file inside the derived directory. -/
def summaryFilename (query_basename : String) : String :=
  query_basename ++ "/" ++ query_basename ++ ".phaster_summary.txt"

/-- Output path of the results archive inside the derived directory. -/
def zipFilename (query_basename : String) : String :=
  query_basename ++ "/" ++ query_basename ++ ".phaster_results.zip"

/-! ## The three operations -/

/-- `submit_job`: on a non-200 response return the sentinel
`("Failed", "Submission failed")`; on 200 extract `job_id` and `status`
from the JSON body (a missing field is an uncaught `KeyError`). -/
def submit_job (r : HttpResponse) (now : Timestamp) :
    Except PyExc (String × String × Timestamp) :=
  if r.status_code ≠ 200 then .ok ("Failed", "Submission failed", now)
  else
    match jsonGet r.json "job_id" with
    | none => .error (.missingField "job_id")
    | some jid =>
      match jsonGet r.json "status" with
      | none => .error (.missingField "status")
      | some st => .ok (jid, st, now)

/-- `download_and_write_results`: derive the output directory from the
query filename; if it already exists, warn and return normally without
writing; otherwise create it, write the summary, fetch
`"http://" + response["zip"]` through `net`, and either write the zip
content or raise `IOError`.  Returns the filesystem after the call and
the exception, if one was raised (side effects persist across a raise). -/
def download_and_write_results (r_dict : List (String × String))
    (query_filename : String) (net : String → HttpResponse) (fs : FS) :
    FS × Option PyExc :=
  let query_basename := queryBasename query_filename
  if fs.dirs.contains query_basename then (fs, none)
  else
    let fs1 : FS := { fs with dirs := query_basename :: fs.dirs }
    match jsonGet r_dict "summary" with
    | none => (fs1, some (.missingField "summary"))
    | some summary =>
      let fs2 : FS := { fs1 with files := (summaryFilename query_basename, summary) :: fs1.files }
      match jsonGet r_dict "zip" with
      | none => (fs2, some (.missingField "zip"))
      | some zipUrl =>
        let zip_response := net ("http://" ++ zipUrl)
        if zip_response.status_code == 200 then
          ({ fs2 with files := (zipFilename query_basename, zip_response.content) :: fs2.files }, none)
        else (fs2, some (.downloadError zipUrl))

/-- The common return `r_dict["job_id"], job_status, datetime.now()`
of `get_status` (a missing `job_id` is an uncaught `KeyError`). -/
def retJob (j : List (String × String)) (job_status : String) (now : Timestamp) :
    Except PyExc (String × String × Timestamp) :=
  match jsonGet j "job_id" with
  | none => .error (.missingField "job_id")
  | some jid => .ok (jid, job_status, now)

/-- `get_status`: on non-200 return the accession with
"Get request failed"; otherwise classify the JSON body: queued
("submissions ahead of yours" in status), running ("Running" in status),
finished ("zip" field present, triggering the download, with only
`IOError` caught), or any other status passed through unchanged. -/
def get_status (accession : String) (r : HttpResponse) (query_filename : String)
    (net : String → HttpResponse) (fs : FS) (now : Timestamp) :
    FS × Except PyExc (String × String × Timestamp) :=
  if r.status_code ≠ 200 then (fs, .ok (accession, "Get request failed", now))
  else
    match jsonGet r.json "status" with
    | none => (fs, .error (.missingField "status"))
    | some job_status =>
      if hasSub job_status "submissions ahead of yours" then
        (fs, retJob r.json job_status now)
      else if hasSub job_status "Running" then
        (fs, retJob r.json job_status now)
      else if (jsonGet r.json "zip").isSome then
        match download_and_write_results r.json query_filename net fs with
        | (fs2, none) => (fs2, retJob r.json "Completed and downloaded" now)
        | (fs2, some (.downloadError _)) => (fs2, retJob r.json job_status now)
        | (fs2, some e) => (fs2, .error e)
      else (fs, retJob r.json job_status now)

/-! ## Orchestrator -/

/-- Observable events of a run: a submission request, a status poll,
and the fixed sleep between consecutive API requests. -/
inductive Event
  | submitted (file : String)
  | polled (accession : String)
  | slept (seconds : Nat)
deriving DecidableEq, Repr

/-- The environment of a run: the remote's response to each submission
and each status poll, the responses of zip-URL fetches, the clock, and
the configured wait. -/
structure Env where
  submitResp : String → HttpResponse
  pollResp : String → HttpResponse
  net : String → HttpResponse
  now : Timestamp
  wait : Nat

/-- The `--fasta` loop: submit each file, record the result, sleep.
An uncaught exception aborts the run (the ledger is not written). -/
def submitLoop (env : Env) (fastas : List String) (db : Db) :
    List Event × Except PyExc Db :=
  match fastas with
  | [] => ([], .ok db)
  | f :: rest =>
    match submit_job (env.submitResp f) env.now with
    | .error e => ([.submitted f], .error e)
    | .ok (jid, st, d) =>
      let p := submitLoop env rest (dbInsert db jid (f, st, d))
      (.submitted f :: .slept env.wait :: p.1, p.2)

/-- The `--get-status` loop over the live ledger dict, as CPython runs
it: the dict iterator records the dict's size at creation (`n0`) and
re-checks it before every step, so a poll that stores a job id not
already in the ledger grows the dict and the next step raises
`RuntimeError("dictionary changed size during iteration")`; storing to
an existing key keeps its slot, so later iterations read the updated
live values.  `i` is the iterator's position in the entry table; a
skipped "Failed" entry does no request, no store and no sleep. -/
def statusLoopFrom (env : Env) (n0 : Nat) (i : Nat) (db : Db) (fs : FS) :
    List Event × FS × Except PyExc Db :=
  if hn : db.length ≠ n0 then
    ([], fs, .error (.runtimeError "dictionary changed size during iteration"))
  else if hi : i < db.length then
    match db[i] with
    | (job_id, (filename, _status, _date)) =>
      if job_id == "Failed" then statusLoopFrom env n0 (i + 1) db fs
      else
        match get_status job_id (env.pollResp job_id) (pyBasename filename) env.net fs env.now with
        | (fs2, .error e) => ([.polled job_id], fs2, .error e)
        | (fs2, .ok (jid2, st2, d2)) =>
          let p := statusLoopFrom env n0 (i + 1) (dbInsert db jid2 (filename, st2, d2)) fs2
          (.polled job_id :: .slept env.wait :: p.1, p.2)
  else ([], fs, .ok db)
termination_by n0 - i
decreasing_by all_goals simp_wf; omega

/-- `for job_id, (filename, status, date) in db.items(): ...`, started
on the freshly loaded ledger. -/
def statusLoop (env : Env) (db : Db) (fs : FS) : List Event × FS × Except PyExc Db :=
  statusLoopFrom env db.length 0 db fs

/-- The `__main__` dispatch: `if options.fasta: ... elif options.get_status:
... ` — a non-empty fasta list takes the submission branch, otherwise the
get-status flag takes the polling branch, otherwise nothing happens. -/
def run_main (env : Env) (fasta : List String) (gs : Bool) (db : Db) (fs : FS) :
    List Event × FS × Except PyExc Db :=
  if !fasta.isEmpty then
    let p := submitLoop env fasta db
    (p.1, fs, p.2)
  else if gs then statusLoop env db fs
  else ([], fs, .ok db)

/-! ## Submission claims -/

/-- C3: for every submission whose HTTP response has a status code other
than 200, `submit_job` returns the sentinel job id "Failed" and status
"Submission failed" together with a timestamp, and raises no exception. -/
theorem submit_job_non200_sentinel (r : HttpResponse) (now : Timestamp)
    (h : r.status_code ≠ 200) :
    submit_job r now = .ok ("Failed", "Submission failed", now) := by
  simp [submit_job, h]

theorem submit_job_non200_sentinel_witness :
    submit_job ⟨500, [], "Internal Server Error"⟩ "t0"
      = .ok ("Failed", "Submission failed", "t0") :=
  submit_job_non200_sentinel ⟨500, [], "Internal Server Error"⟩ "t0" (by decide)

/-- C6: for every submission whose HTTP response is 200, `submit_job`
returns the body's `job_id` and `status` fields together with a
timestamp, and fails with a missing-field error (an uncaught exception)
if either field is absent. -/
theorem submit_job_200_extracts_fields (r : HttpResponse) (now : Timestamp)
    (h200 : r.status_code = 200) :
    (∀ jid st, jsonGet r.json "job_id" = some jid →
        jsonGet r.json "status" = some st →
        submit_job r now = .ok (jid, st, now)) ∧
    (jsonGet r.json "job_id" = none →
        submit_job r now = .error (.missingField "job_id")) ∧
    (∀ jid, jsonGet r.json "job_id" = some jid →
        jsonGet r.json "status" = none →
        submit_job r now = .error (.missingField "status")) := by
  refine ⟨?_, ?_, ?_⟩
  · intro jid st hj hs
    simp [submit_job, h200, hj, hs]
  · intro hj
    simp [submit_job, h200, hj]
  · intro jid hj hs
    simp [submit_job, h200, hj, hs]

theorem submit_job_200_extracts_fields_witness :
    submit_job ⟨200, [("job_id", "X"), ("status", "Submitted")], ""⟩ "t0"
      = .ok ("X", "Submitted", "t0") :=
  (submit_job_200_extracts_fields ⟨200, [("job_id", "X"), ("status", "Submitted")], ""⟩
    "t0" rfl).1 "X" "Submitted" rfl rfl

/-! ## Status-poll claims -/

/-- C1: for every poll that returns HTTP 200 with a JSON body, the
response is classified in priority order: "submissions ahead of yours"
in the status → queued, no download; else "Running" in the status →
running, no download; else a "zip" field present → finished, download
triggered; else the status value is returned unchanged, not an error. -/
theorem get_status_classification (acc qf : String) (r : HttpResponse)
    (net : String → HttpResponse) (fs : FS) (now : Timestamp) (st jid : String)
    (h200 : r.status_code = 200)
    (hst : jsonGet r.json "status" = some st)
    (hjid : jsonGet r.json "job_id" = some jid) :
    (hasSub st "submissions ahead of yours" = true →
        get_status acc r qf net fs now = (fs, .ok (jid, st, now))) ∧
    (hasSub st "submissions ahead of yours" = false →
     hasSub st "Running" = true →
        get_status acc r qf net fs now = (fs, .ok (jid, st, now))) ∧
    (∀ z, hasSub st "submissions ahead of yours" = false →
     hasSub st "Running" = false →
     jsonGet r.json "zip" = some z →
        get_status acc r qf net fs now =
          ((download_and_write_results r.json qf net fs).1,
            match (download_and_write_results r.json qf net fs).2 with
            | none => .ok (jid, "Completed and downloaded", now)
            | some (.downloadError _) => .ok (jid, st, now)
            | some e => .error e)) ∧
    (hasSub st "submissions ahead of yours" = false →
     hasSub st "Running" = false →
     jsonGet r.json "zip" = none →
        get_status acc r qf net fs now = (fs, .ok (jid, st, now))) := by
  refine ⟨?_, ?_, ?_, ?_⟩
  · intro hq
    simp [get_status, h200, hst, hq, retJob, hjid]
  · intro hq hr
    simp [get_status, h200, hst, hq, hr, retJob, hjid]
  · intro z hq hr hz
    rcases hd : download_and_write_results r.json qf net fs with ⟨fs2, derr⟩
    rcases derr with _ | e
    · simp [get_status, h200, hst, hq, hr, hz, hd, retJob, hjid]
    · rcases e with k | l | u | m <;>
        simp [get_status, h200, hst, hq, hr, hz, hd, retJob, hjid]
  · intro hq hr hz
    simp [get_status, h200, hst, hq, hr, hz, retJob, hjid]

theorem get_status_classification_witness :
    get_status "X"
        ⟨200, [("status", "There are 3 submissions ahead of yours"), ("job_id", "X")], ""⟩
        "q.fna" (fun _ => ⟨404, [], ""⟩) ⟨[], []⟩ "t1"
      = (⟨[], []⟩, .ok ("X", "There are 3 submissions ahead of yours", "t1")) :=
  (get_status_classification "X" "q.fna"
      ⟨200, [("status", "There are 3 submissions ahead of yours"), ("job_id", "X")], ""⟩
      (fun _ => ⟨404, [], ""⟩) ⟨[], []⟩ "t1"
      "There are 3 submissions ahead of yours" "X" rfl rfl rfl).1 (by decide)

/-- C2 counterexample: a 200 poll response carrying a "zip" field, with
the derived output directory already existing — the download is skipped,
yet `get_status` returns status "Completed and downloaded", not the raw
remote status "done". -/
theorem get_status_existing_dir_counterexample :
    get_status "X"
        ⟨200, [("status", "done"), ("job_id", "X"), ("zip", "h/p.zip"), ("summary", "S")], ""⟩
        "q.fna" (fun _ => ⟨200, [], "Z"⟩) ⟨["q"], []⟩ "t2"
      = (⟨["q"], []⟩, .ok ("X", "Completed and downloaded", "t2")) ∧
    ("Completed and downloaded" : String) ≠ "done" :=
  ⟨rfl, by decide⟩

/-- C2 (amended): for every poll whose 200 response contains a "zip"
field (and is not classified as queued or running), if the output
directory derived from the output basename already exists, the download
step skips writing with a warning, no filesystem change is made, and
`get_status` nevertheless returns status "Completed and downloaded"
(the skip is treated as a successful download). -/
theorem get_status_existing_dir_overrides (acc qf : String) (r : HttpResponse)
    (net : String → HttpResponse) (fs : FS) (now : Timestamp) (st jid : String)
    (h200 : r.status_code = 200)
    (hst : jsonGet r.json "status" = some st)
    (hq : hasSub st "submissions ahead of yours" = false)
    (hr : hasSub st "Running" = false)
    (hz : (jsonGet r.json "zip").isSome = true)
    (hjid : jsonGet r.json "job_id" = some jid)
    (hdir : fs.dirs.contains (queryBasename qf) = true) :
    get_status acc r qf net fs now = (fs, .ok (jid, "Completed and downloaded", now)) := by
  have hmem : queryBasename qf ∈ fs.dirs := by simpa using hdir
  simp [get_status, h200, hst, hq, hr, hz, download_and_write_results, hmem, retJob, hjid]

theorem get_status_existing_dir_overrides_witness :
    get_status "Y"
        ⟨200, [("status", "done"), ("job_id", "Y"), ("zip", "h/p2.zip"), ("summary", "S2")], ""⟩
        "g.fasta" (fun _ => ⟨200, [], "Z2"⟩) ⟨["g", "other"], [("g/old.txt", "o")]⟩ "t4"
      = (⟨["g", "other"], [("g/old.txt", "o")]⟩, .ok ("Y", "Completed and downloaded", "t4")) :=
  get_status_existing_dir_overrides "Y" "g.fasta"
    ⟨200, [("status", "done"), ("job_id", "Y"), ("zip", "h/p2.zip"), ("summary", "S2")], ""⟩
    (fun _ => ⟨200, [], "Z2"⟩) ⟨["g", "other"], [("g/old.txt", "o")]⟩ "t4" "done" "Y"
    rfl rfl (by decide) (by decide) rfl rfl (by decide)

/-- C7 counterexample: on a fresh directory and a successful zip fetch,
the files written are `q/q.phaster_summary.txt` and
`q/q.phaster_results.zip` — not `q/q.summary.txt` / `q/q.results.zip`
as the claim names them. -/
theorem download_filenames_counterexample :
    get_status "X"
        ⟨200, [("status", "done"), ("job_id", "X"), ("zip", "h/p.zip"), ("summary", "SUM")], ""⟩
        "q.fna" (fun _ => ⟨200, [], "ZDATA"⟩) ⟨[], []⟩ "t3"
      = (⟨["q"], [("q/q.phaster_results.zip", "ZDATA"), ("q/q.phaster_summary.txt", "SUM")]⟩,
         .ok ("X", "Completed and downloaded", "t3")) ∧
    ((get_status "X"
        ⟨200, [("status", "done"), ("job_id", "X"), ("zip", "h/p.zip"), ("summary", "SUM")], ""⟩
        "q.fna" (fun _ => ⟨200, [], "ZDATA"⟩) ⟨[], []⟩ "t3").1.files.all
      (fun p => p.1 != "q/q.summary.txt" && p.1 != "q/q.results.zip")) = true :=
  ⟨rfl, rfl⟩

/-- C7 (amended): for every poll whose 200 response contains a "zip"
field (and is not classified as queued or running), when the derived
output directory does not yet exist, the download creates the directory,
writes the response's summary field to `<dir>/<basename>.phaster_summary.txt`,
fetches the zip URL prefixed with the scheme "http://" and writes its
content to `<dir>/<basename>.phaster_results.zip`, and `get_status`
returns status "Completed and downloaded". -/
theorem download_fresh_dir_success (acc qf : String) (r : HttpResponse)
    (net : String → HttpResponse) (fs : FS) (now : Timestamp) (st jid z sm : String)
    (h200 : r.status_code = 200)
    (hst : jsonGet r.json "status" = some st)
    (hq : hasSub st "submissions ahead of yours" = false)
    (hr : hasSub st "Running" = false)
    (hz : jsonGet r.json "zip" = some z)
    (hsm : jsonGet r.json "summary" = some sm)
    (hjid : jsonGet r.json "job_id" = some jid)
    (hdir : fs.dirs.contains (queryBasename qf) = false)
    (hnet : (net ("http://" ++ z)).status_code = 200) :
    get_status acc r qf net fs now =
      ({ dirs := queryBasename qf :: fs.dirs,
         files := (zipFilename (queryBasename qf), (net ("http://" ++ z)).content)
                    :: (summaryFilename (queryBasename qf), sm) :: fs.files },
       .ok (jid, "Completed and downloaded", now)) := by
  have hmem : queryBasename qf ∉ fs.dirs := by simpa using hdir
  simp [get_status, h200, hst, hq, hr, hz, download_and_write_results, hmem, hsm,
    hnet, retJob, hjid]

theorem download_fresh_dir_success_witness :
    get_status "X"
        ⟨200, [("status", "done"), ("job_id", "X"), ("zip", "h/p.zip"), ("summary", "SUM")], ""⟩
        "w.fna" (fun _ => ⟨200, [], "ZDATA"⟩) ⟨[], []⟩ "t5"
      = (⟨["w"], [("w/w.phaster_results.zip", "ZDATA"), ("w/w.phaster_summary.txt", "SUM")]⟩,
         .ok ("X", "Completed and downloaded", "t5")) :=
  download_fresh_dir_success "X" "w.fna"
    ⟨200, [("status", "done"), ("job_id", "X"), ("zip", "h/p.zip"), ("summary", "SUM")], ""⟩
    (fun _ => ⟨200, [], "ZDATA"⟩) ⟨[], []⟩ "t5" "done" "X" "h/p.zip" "SUM"
    rfl rfl (by decide) (by decide) rfl rfl rfl (by decide) rfl

/-- C9: for every download in which the zip fetch does not return a
success status, the download fails with a download error that propagates
to `get_status`, which logs it and returns the original remote status
unchanged; and (for a remote status distinct from the override literal)
the status is overridden to "Completed and downloaded" exactly when the
zip fetch succeeds. -/
theorem download_failure_keeps_status (acc qf : String) (r : HttpResponse)
    (net : String → HttpResponse) (fs : FS) (now : Timestamp) (st jid z sm : String)
    (h200 : r.status_code = 200)
    (hst : jsonGet r.json "status" = some st)
    (hq : hasSub st "submissions ahead of yours" = false)
    (hr : hasSub st "Running" = false)
    (hz : jsonGet r.json "zip" = some z)
    (hsm : jsonGet r.json "summary" = some sm)
    (hjid : jsonGet r.json "job_id" = some jid)
    (hdir : fs.dirs.contains (queryBasename qf) = false) :
    ((net ("http://" ++ z)).status_code ≠ 200 →
      get_status acc r qf net fs now =
        ({ dirs := queryBasename qf :: fs.dirs,
           files := (summaryFilename (queryBasename qf), sm) :: fs.files },
         .ok (jid, st, now))) ∧
    (st ≠ "Completed and downloaded" →
      ((get_status acc r qf net fs now).2 = .ok (jid, "Completed and downloaded", now)
        ↔ (net ("http://" ++ z)).status_code = 200)) := by
  have hmem : queryBasename qf ∉ fs.dirs := by simpa using hdir
  constructor
  · intro hnet
    have hb : ((net ("http://" ++ z)).status_code == 200) = false := by
      simp [hnet]
    simp [get_status, h200, hst, hq, hr, hz, download_and_write_results, hmem, hsm,
      hb, retJob, hjid]
  · intro hne
    by_cases hnet : (net ("http://" ++ z)).status_code = 200
    · simp [get_status, h200, hst, hq, hr, hz, download_and_write_results, hmem, hsm,
        hnet, retJob, hjid]
    · have hb : ((net ("http://" ++ z)).status_code == 200) = false := by
        simp [hnet]
      simp [get_status, h200, hst, hq, hr, hz, download_and_write_results, hmem, hsm,
        hb, retJob, hjid, hnet, hne]

theorem download_failure_keeps_status_witness :
    get_status "X"
        ⟨200, [("status", "done"), ("job_id", "X"), ("zip", "h/p.zip"), ("summary", "SUM")], ""⟩
        "v.fna" (fun _ => ⟨503, [], ""⟩) ⟨[], []⟩ "t6"
      = (⟨["v"], [("v/v.phaster_summary.txt", "SUM")]⟩, .ok ("X", "done", "t6")) :=
  (download_failure_keeps_status "X" "v.fna"
      ⟨200, [("status", "done"), ("job_id", "X"), ("zip", "h/p.zip"), ("summary", "SUM")], ""⟩
      (fun _ => ⟨503, [], ""⟩) ⟨[], []⟩ "t6" "done" "X" "h/p.zip" "SUM"
      rfl rfl (by decide) (by decide) rfl rfl rfl (by decide)).1 (by decide)

/-! ## Ledger parsing lemmas -/

theorem strData_append (s t : String) : (s ++ t).data = s.data ++ t.data := by
  cases s
  cases t
  rfl

theorem dw_head_false {α : Type} (p : α → Bool) :
    ∀ (l : List α) (c : α), (l.dropWhile p).head? = some c → p c = false := by
  intro l
  induction l with
  | nil => intro c hc; simp [List.dropWhile] at hc
  | cons a as ih =>
    intro c hc
    by_cases h : p a
    · rw [List.dropWhile_cons, if_pos h] at hc
      exact ih c hc
    · rw [List.dropWhile_cons, if_neg h] at hc
      simp only [List.head?_cons, Option.some.injEq] at hc
      subst hc
      simpa using h

theorem dw_eq_self {α : Type} (p : α → Bool) (l : List α)
    (h : ∀ c, l.head? = some c → p c = false) : l.dropWhile p = l := by
  cases l with
  | nil => rfl
  | cons a as =>
    have ha := h a rfl
    simp [List.dropWhile_cons, ha]

theorem dw_idem {α : Type} (p : α → Bool) (l : List α) :
    (l.dropWhile p).dropWhile p = l.dropWhile p :=
  dw_eq_self p _ (fun c hc => dw_head_false p l c hc)

theorem dw_suffix {α : Type} (p : α → Bool) :
    ∀ l : List α, ∃ t, t ++ l.dropWhile p = l := by
  intro l
  induction l with
  | nil => exact ⟨[], rfl⟩
  | cons a as ih =>
    by_cases h : p a
    · obtain ⟨t, ht⟩ := ih
      exact ⟨a :: t, by simp [List.dropWhile_cons, h, ht]⟩
    · exact ⟨[], by simp [List.dropWhile_cons, h]⟩

theorem stripChars_idem (cs : List Char) : stripChars (stripChars cs) = stripChars cs := by
  have h1 : (stripChars cs).dropWhile pyWs = stripChars cs := by
    apply dw_eq_self
    intro c hc
    obtain ⟨t, ht⟩ := dw_suffix pyWs (cs.dropWhile pyWs).reverse
    have hA : (stripChars cs) ++ t.reverse = cs.dropWhile pyWs := by
      have := congrArg List.reverse ht
      simpa [stripChars] using this
    cases hBr : stripChars cs with
    | nil => rw [hBr] at hc; simp at hc
    | cons x xs =>
      rw [hBr] at hc
      simp only [List.head?_cons, Option.some.injEq] at hc
      rw [← hc]
      apply dw_head_false pyWs cs x
      rw [← hA, hBr]
      rfl
  have h2 : (stripChars cs).reverse.dropWhile pyWs = (stripChars cs).reverse := by
    have : (stripChars cs).reverse = (cs.dropWhile pyWs).reverse.dropWhile pyWs := by
      simp [stripChars]
    rw [this]
    exact dw_idem pyWs _
  show (((stripChars cs).dropWhile pyWs).reverse.dropWhile pyWs).reverse = stripChars cs
  rw [h1, h2, List.reverse_reverse]

theorem splitTab_ne_nil : ∀ cs : List Char, splitTab cs ≠ [] := by
  intro cs
  induction cs with
  | nil => simp [splitTab]
  | cons c cs ih =>
    by_cases h : c == '\t'
    · simp [splitTab, h]
    · rcases hs : splitTab cs with _ | ⟨p, ps⟩
      · exact absurd hs ih
      · simp [splitTab, h, hs]

theorem splitTab_tabFree (f : List Char) (hf : ∀ c ∈ f, (c == '\t') = false) :
    splitTab f = [f] := by
  induction f with
  | nil => rfl
  | cons c cs ih =>
    have hc : (c == '\t') = false := hf c (by simp)
    have ih' := ih (fun x hx => hf x (by simp [hx]))
    simp [splitTab, hc, ih']

theorem splitTab_append (f rest : List Char) (hf : ∀ c ∈ f, (c == '\t') = false) :
    splitTab (f ++ '\t' :: rest) = f :: splitTab rest := by
  induction f with
  | nil => simp [splitTab]
  | cons c cs ih =>
    have hc : (c == '\t') = false := hf c (by simp)
    have ih' := ih (fun x hx => hf x (by simp [hx]))
    simp [splitTab, hc, ih']

theorem splitTab_join : ∀ cs : List Char, joinTab (splitTab cs) = cs := by
  intro cs
  induction cs with
  | nil => rfl
  | cons c cs ih =>
    obtain ⟨q, qs, hqs⟩ := List.exists_cons_of_ne_nil (splitTab_ne_nil cs)
    rw [hqs] at ih
    by_cases h : c == '\t'
    · have hc : c = '\t' := by simpa using h
      subst hc
      simp only [splitTab, h, if_pos, hqs]
      show joinTab ([] :: q :: qs) = '\t' :: cs
      show [] ++ '\t' :: joinTab (q :: qs) = '\t' :: cs
      simp [ih]
    · rcases qs with _ | ⟨r, rs⟩
      · simp only [splitTab, h, if_neg, Bool.false_eq_true, not_false_iff, hqs]
        show joinTab [c :: q] = c :: cs
        show c :: q = c :: cs
        have : joinTab [q] = cs := ih
        simpa [joinTab] using this
      · simp only [splitTab, h, if_neg, Bool.false_eq_true, not_false_iff, hqs]
        show joinTab ((c :: q) :: r :: rs) = c :: cs
        show (c :: q) ++ '\t' :: joinTab (r :: rs) = c :: cs
        have : q ++ '\t' :: joinTab (r :: rs) = cs := ih
        simp [this]

theorem splitTab_pieces_tabFree :
    ∀ (cs p : List Char), p ∈ splitTab cs → ∀ c ∈ p, (c == '\t') = false := by
  intro cs
  induction cs with
  | nil =>
    intro p hp c hc
    simp [splitTab] at hp
    subst hp
    simp at hc
  | cons a as ih =>
    intro p hp c hc
    by_cases h : a == '\t'
    · simp only [splitTab, h, if_pos, List.mem_cons] at hp
      rcases hp with rfl | hp
      · simp at hc
      · exact ih p hp c hc
    · obtain ⟨q, qs, hqs⟩ := List.exists_cons_of_ne_nil (splitTab_ne_nil as)
      simp only [splitTab, h, if_neg, Bool.false_eq_true, not_false_iff, hqs,
        List.mem_cons] at hp
      rcases hp with rfl | hp
      · rcases List.mem_cons.mp hc with rfl | hc2
        · simpa using h
        · exact ih q (by rw [hqs]; exact List.mem_cons_self q qs) c hc2
      · exact ih p (by rw [hqs]; exact List.mem_cons_of_mem q hp) c hc

theorem tab_data : "\t".data = ['\t'] := rfl

theorem writeLine_data (k : String) (r : Record) :
    (writeLine k r).data
      = r.1.data ++ '\t' :: (k.data ++ '\t' :: (r.2.1.data ++ '\t' :: r.2.2.data)) := by
  simp [writeLine, strData_append, tab_data]

/-- A ledger entry whose written line parses back to exactly itself. -/
def recOk (k : String) (r : Record) : Prop :=
  parseLine (writeLine k r) = .ok (r.1, k, r.2.1, r.2.2)

theorem joinTab_four (a b c d : List Char) :
    joinTab [a, b, c, d] = a ++ '\t' :: (b ++ '\t' :: (c ++ '\t' :: d)) := by
  show a ++ '\t' :: joinTab [b, c, d] = _
  show a ++ '\t' :: (b ++ '\t' :: joinTab [c, d]) = _
  show a ++ '\t' :: (b ++ '\t' :: (c ++ '\t' :: joinTab [d])) = _
  rfl

theorem parseLine_ok_split (line f j s d : String)
    (h : parseLine line = .ok (f, j, s, d)) :
    splitTab (stripChars line.data) = [f.data, j.data, s.data, d.data] := by
  unfold parseLine at h
  rcases hq : splitTab (stripChars line.data) with _ | ⟨a, _ | ⟨b, _ | ⟨c0, _ | ⟨d0, _ | ⟨e0, t⟩⟩⟩⟩⟩ <;>
    rw [hq] at h <;> simp at h
  obtain ⟨hf, hj, hs, hd⟩ := h
  rw [← hf, ← hj, ← hs, ← hd]

theorem parseLine_ok_recOk (line f j s d : String)
    (h : parseLine line = .ok (f, j, s, d)) : recOk j (f, s, d) := by
  have hsp := parseLine_ok_split line f j s d h
  unfold recOk parseLine
  rw [writeLine_data]
  have hjoin : f.data ++ '\t' :: (j.data ++ '\t' :: (s.data ++ '\t' :: d.data))
      = stripChars line.data := by
    rw [← splitTab_join (stripChars line.data), hsp, joinTab_four]
  rw [hjoin, stripChars_idem, hsp]

theorem dbInsert_keys (db : Db) (k : String) (v : Record) :
    (dbInsert db k v).map Prod.fst =
      if db.any (fun p => p.1 == k) then db.map Prod.fst
      else db.map Prod.fst ++ [k] := by
  unfold dbInsert
  by_cases h : db.any (fun p => p.1 == k)
  · rw [if_pos h, if_pos h, List.map_map]
    apply List.map_congr_left
    intro p _
    by_cases hpk : p.1 == k
    · have hp1 : p.1 = k := by simpa using hpk
      simp [hpk, Function.comp, hp1]
    · simp [hpk, Function.comp]
  · rw [if_neg h, if_neg h]
    simp

theorem dbInsert_nodup (db : Db) (k : String) (v : Record)
    (h : (db.map Prod.fst).Nodup) : ((dbInsert db k v).map Prod.fst).Nodup := by
  rw [dbInsert_keys]
  by_cases hany : db.any (fun p => p.1 == k)
  · rw [if_pos hany]; exact h
  · rw [if_neg hany]
    have hk : k ∉ db.map Prod.fst := by
      intro hmem
      apply hany
      obtain ⟨p, hp, hpk⟩ := List.mem_map.mp hmem
      exact List.any_eq_true.mpr ⟨p, hp, by simp [hpk]⟩
    simp [List.nodup_append, h, hk]

theorem dbInsert_recOk (db : Db) (k : String) (v : Record)
    (hall : ∀ p ∈ db, recOk p.1 p.2) (hv : recOk k v) :
    ∀ p ∈ dbInsert db k v, recOk p.1 p.2 := by
  intro p hp
  unfold dbInsert at hp
  by_cases h : db.any (fun q => q.1 == k)
  · rw [if_pos h] at hp
    obtain ⟨q, hq, hpq⟩ := List.mem_map.mp hp
    by_cases hqk : q.1 == k
    · rw [if_pos hqk] at hpq
      rw [← hpq]
      exact hv
    · rw [if_neg hqk] at hpq
      rw [← hpq]
      exact hall q hq
  · rw [if_neg h] at hp
    rcases List.mem_append.mp hp with hp | hp
    · exact hall p hp
    · simp only [List.mem_singleton] at hp
      rw [hp]
      exact hv

theorem read_lines_ok :
    ∀ (lines : List String) (db0 db : Db),
      (∀ p ∈ db0, recOk p.1 p.2) → (db0.map Prod.fst).Nodup →
      read_database_lines lines db0 = .ok db →
      (∀ p ∈ db, recOk p.1 p.2) ∧ (db.map Prod.fst).Nodup := by
  intro lines
  induction lines with
  | nil =>
    intro db0 db h1 h2 h
    have : db0 = db := by simpa [read_database_lines] using h
    rw [← this]
    exact ⟨h1, h2⟩
  | cons line rest ih =>
    intro db0 db h1 h2 h
    rcases hp : parseLine line with e | ⟨f, j, s, d⟩ <;>
      simp only [read_database_lines, hp] at h
    · exact absurd h (by simp)
    · exact ih _ db
        (dbInsert_recOk _ _ _ h1 (parseLine_ok_recOk line f j s d hp))
        (dbInsert_nodup _ _ _ h2) h

theorem read_write (db : Db) (hall : ∀ p ∈ db, recOk p.1 p.2) :
    ∀ acc : Db, read_database_lines (write_database db) acc
      = .ok (db.foldl (fun a p => dbInsert a p.1 p.2) acc) := by
  induction db with
  | nil => intro acc; rfl
  | cons e rest ih =>
    intro acc
    have he : parseLine (writeLine e.1 e.2) = .ok (e.2.1, e.1, e.2.2.1, e.2.2.2) :=
      hall e (by simp)
    have hrest : ∀ p ∈ rest, recOk p.1 p.2 := fun p hp => hall p (by simp [hp])
    show read_database_lines (writeLine e.1 e.2 :: write_database rest) acc = _
    simp only [read_database_lines, he, List.foldl_cons]
    exact ih hrest (dbInsert acc e.1 (e.2.1, e.2.2.1, e.2.2.2))

theorem foldl_dbInsert_fresh :
    ∀ (db acc : Db), (acc.map Prod.fst ++ db.map Prod.fst).Nodup →
      db.foldl (fun a p => dbInsert a p.1 p.2) acc = acc ++ db := by
  intro db
  induction db with
  | nil => intro acc _; simp
  | cons e rest ih =>
    intro acc h
    have hk : e.1 ∉ acc.map Prod.fst := by
      intro hmem
      have hdisj := (List.nodup_append.mp h).2.2
      exact hdisj hmem (by simp)
    have hany : acc.any (fun p => p.1 == e.1) = false := by
      rw [List.any_eq_false]
      intro p hp
      intro hbeq
      apply hk
      have : p.1 = e.1 := by simpa using hbeq
      rw [← this]
      exact List.mem_map_of_mem Prod.fst hp
    have hins : dbInsert acc e.1 e.2 = acc ++ [(e.1, e.2)] := by
      unfold dbInsert
      rw [hany]
      simp
    rw [List.foldl_cons, hins, ih (acc ++ [(e.1, e.2)]) (by simpa using h)]
    simp

/-- C4: for every well-formed ledger file (one `read_database` parses
without error), writing the loaded mapping back out and loading again
yields the same mapping: save after load is content-equivalent to the
original load. -/
theorem ledger_roundtrip (lines : List String) (db : Db)
    (h : read_database_lines lines [] = .ok db) :
    read_database_lines (write_database db) [] = .ok db := by
  obtain ⟨hall, hnodup⟩ := read_lines_ok lines [] db (by simp) (by simp) h
  rw [read_write db hall [], foldl_dbInsert_fresh db [] (by simpa using hnodup)]
  simp

theorem ledger_roundtrip_witness :
    read_database_lines
        (write_database [("J1", ("f1", "submitted", "d1")), ("J2", ("f2", "Running", "d2"))]) []
      = .ok [("J1", ("f1", "submitted", "d1")), ("J2", ("f2", "Running", "d2"))] :=
  ledger_roundtrip ["f1\tJ1\tsubmitted\td1", "f2\tJ2\tRunning\td2"] _ rfl

/-! ## Field-exact loading (C5) -/

/-- Four field values that a stripped ledger line can consist of:
tab-free, with the first field starting and the last field ending in a
non-whitespace character (which is exactly what a line that `strip`
leaves unchanged provides). -/
def goodFields (f j s d : String) : Bool :=
  f.data.all (fun c => c != '\t') && j.data.all (fun c => c != '\t') &&
  s.data.all (fun c => c != '\t') && d.data.all (fun c => c != '\t') &&
  (match f.data.head? with | some c => !pyWs c | none => false) &&
  (match d.data.reverse.head? with | some c => !pyWs c | none => false)

theorem parseLine_malformed (line : String)
    (h : (splitTab (stripChars line.data)).length ≠ 4) :
    parseLine line = .error (.malformedRecord line) := by
  unfold parseLine
  rcases hq : splitTab (stripChars line.data) with _ | ⟨a, _ | ⟨b, _ | ⟨c0, _ | ⟨d0, _ | ⟨e0, t⟩⟩⟩⟩⟩
  all_goals try rw [hq] at h
  all_goals first | rfl | exact absurd rfl h

theorem parseLine_four (line : String)
    (h : (splitTab (stripChars line.data)).length = 4) :
    ∃ f j s d, parseLine line = .ok (f, j, s, d) := by
  rcases hq : splitTab (stripChars line.data) with _ | ⟨a, _ | ⟨b, _ | ⟨c0, _ | ⟨d0, _ | ⟨e0, t⟩⟩⟩⟩⟩ <;>
    (try rw [hq] at h) <;> simp at h
  exact ⟨⟨a⟩, ⟨b⟩, ⟨c0⟩, ⟨d0⟩, by unfold parseLine; rw [hq]⟩

theorem read_lines_malformed :
    ∀ (lines : List String) (db0 : Db),
      (∃ line ∈ lines, (splitTab (stripChars line.data)).length ≠ 4) →
      ∃ bad ∈ lines, read_database_lines lines db0 = .error (.malformedRecord bad) := by
  intro lines
  induction lines with
  | nil => intro db0 h; simp at h
  | cons line rest ih =>
    intro db0 h
    by_cases hl : (splitTab (stripChars line.data)).length = 4
    · obtain ⟨f, j, s, d, hp⟩ := parseLine_four line hl
      have hrest : ∃ l ∈ rest, (splitTab (stripChars l.data)).length ≠ 4 := by
        rcases h with ⟨l, hmem, hlen⟩
        rcases List.mem_cons.mp hmem with rfl | hmem2
        · exact absurd hl hlen
        · exact ⟨l, hmem2, hlen⟩
      obtain ⟨bad, hbmem, hb⟩ := ih (dbInsert db0 j (f, s, d)) hrest
      refine ⟨bad, List.mem_cons_of_mem _ hbmem, ?_⟩
      simp only [read_database_lines, hp]
      exact hb
    · refine ⟨line, by simp, ?_⟩
      simp only [read_database_lines, parseLine_malformed line hl]

/-- C5 counterexample: the line `" a\tb\tc\td"` splits (raw) into the
four tab-separated fields `" a"`, `"b"`, `"c"`, `"d"`, but `parseLine`
returns `("a", "b", "c", "d")`: the leading space of the first field is
stripped, so the fields are not reconstructed with no transformation. -/
theorem parseLine_strips_counterexample :
    splitTab ((" a\tb\tc\td" : String).data)
      = [(" a" : String).data, ("b" : String).data, ("c" : String).data, ("d" : String).data] ∧
    parseLine " a\tb\tc\td" = .ok ("a", "b", "c", "d") ∧
    parseLine " a\tb\tc\td" ≠ .ok (" a", "b", "c", "d") := by
  refine ⟨rfl, rfl, ?_⟩
  intro h
  rw [show parseLine " a\tb\tc\td" = .ok ("a", "b", "c", "d") from rfl,
    Except.ok.injEq] at h
  exact absurd h (by decide)

/-- C5 (amended): `read_database` parses each line, after stripping
leading and trailing whitespace, into exactly the four tab-separated
fields filename, job_id, status, timestamp with no further
transformation; it fails with a malformed-record error on any line whose
stripped form does not split into exactly four fields (and loading a
file containing such a line fails); if the file does not exist, it
creates an empty file and returns an empty mapping. -/
theorem parseLine_exact_fields :
    (∀ f j s d : String, goodFields f j s d = true →
        parseLine (f ++ "\t" ++ j ++ "\t" ++ s ++ "\t" ++ d) = .ok (f, j, s, d)) ∧
    (∀ line : String, (splitTab (stripChars line.data)).length ≠ 4 →
        parseLine line = .error (.malformedRecord line)) ∧
    (∀ (lines : List String) (db0 : Db),
        (∃ line ∈ lines, (splitTab (stripChars line.data)).length ≠ 4) →
        ∃ bad ∈ lines, read_database_lines lines db0 = .error (.malformedRecord bad)) ∧
    read_database none = ([], .ok []) := by
  refine ⟨?_, parseLine_malformed, read_lines_malformed, rfl⟩
  intro f j s d hg
  unfold goodFields at hg
  simp only [Bool.and_eq_true] at hg
  obtain ⟨⟨⟨⟨⟨hft, hjt⟩, hst⟩, hdt⟩, hfh⟩, hdl⟩ := hg
  have hf : ∀ c ∈ f.data, (c == '\t') = false := by
    intro c hc
    simpa [bne] using List.all_eq_true.mp hft c hc
  have hj : ∀ c ∈ j.data, (c == '\t') = false := by
    intro c hc
    simpa [bne] using List.all_eq_true.mp hjt c hc
  have hs : ∀ c ∈ s.data, (c == '\t') = false := by
    intro c hc
    simpa [bne] using List.all_eq_true.mp hst c hc
  have hd : ∀ c ∈ d.data, (c == '\t') = false := by
    intro c hc
    simpa [bne] using List.all_eq_true.mp hdt c hc
  have hdata : (f ++ "\t" ++ j ++ "\t" ++ s ++ "\t" ++ d).data
      = f.data ++ '\t' :: (j.data ++ '\t' :: (s.data ++ '\t' :: d.data)) := by
    simp [strData_append, tab_data]
  rcases hfd : f.data with _ | ⟨c0, ftl⟩
  · rw [hfd] at hfh; simp at hfh
  rcases hdr : d.data.reverse with _ | ⟨e1, dtl⟩
  · rw [hdr] at hdl; simp at hdl
  rw [hfd] at hfh
  rw [hdr] at hdl
  simp only [List.head?_cons] at hfh hdl
  have hws0 : pyWs c0 = false := by simpa using hfh
  have hws1 : pyWs e1 = false := by simpa using hdl
  have hstrip : stripChars (f.data ++ '\t' :: (j.data ++ '\t' :: (s.data ++ '\t' :: d.data)))
      = f.data ++ '\t' :: (j.data ++ '\t' :: (s.data ++ '\t' :: d.data)) := by
    have h1 : (f.data ++ '\t' :: (j.data ++ '\t' :: (s.data ++ '\t' :: d.data))).dropWhile pyWs
        = f.data ++ '\t' :: (j.data ++ '\t' :: (s.data ++ '\t' :: d.data)) := by
      apply dw_eq_self
      intro c hc
      rw [hfd] at hc
      simp only [List.cons_append, List.head?_cons, Option.some.injEq] at hc
      rw [← hc]
      exact hws0
    have hsplitL : f.data ++ '\t' :: (j.data ++ '\t' :: (s.data ++ '\t' :: d.data))
        = (f.data ++ '\t' :: (j.data ++ '\t' :: (s.data ++ ['\t']))) ++ d.data := by
      simp
    have h2 : (f.data ++ '\t' :: (j.data ++ '\t' :: (s.data ++ '\t' :: d.data))).reverse.dropWhile pyWs
        = (f.data ++ '\t' :: (j.data ++ '\t' :: (s.data ++ '\t' :: d.data))).reverse := by
      apply dw_eq_self
      intro c hc
      rw [hsplitL, List.reverse_append, hdr] at hc
      simp only [List.cons_append, List.head?_cons, Option.some.injEq] at hc
      rw [← hc]
      exact hws1
    unfold stripChars
    rw [h1, h2, List.reverse_reverse]
  have hsplit : splitTab (f.data ++ '\t' :: (j.data ++ '\t' :: (s.data ++ '\t' :: d.data)))
      = [f.data, j.data, s.data, d.data] := by
    rw [splitTab_append _ _ hf, splitTab_append _ _ hj, splitTab_append _ _ hs,
      splitTab_tabFree _ hd]
  unfold parseLine
  rw [hdata, hstrip, hsplit]

theorem parseLine_exact_fields_witness :
    goodFields "f1" "J1" "status msg" "2018-01-01" = true ∧
    parseLine ("f1" ++ "\t" ++ "J1" ++ "\t" ++ "status msg" ++ "\t" ++ "2018-01-01")
      = .ok ("f1", "J1", "status msg", "2018-01-01") :=
  ⟨by decide, parseLine_exact_fields.1 "f1" "J1" "status msg" "2018-01-01" (by decide)⟩

/-! ## Orchestrator claims -/

theorem find_map_ne (db : Db) (k k' : String) (v : Record) (h : k ≠ k') :
    (db.map (fun p => if p.1 == k then (k, v) else p)).find? (fun p => p.1 == k')
      = db.find? (fun p => p.1 == k') := by
  induction db with
  | nil => rfl
  | cons e rest ih =>
    rw [List.map_cons]
    by_cases he : e.1 == k
    · rw [if_pos he]
      have hkk : (k == k') = false := by simp [h]
      have he1 : e.1 = k := by simpa using he
      have hek : (e.1 == k') = false := by simp [he1, h]
      rw [List.find?_cons_of_neg _ (by simp [hkk]),
        List.find?_cons_of_neg _ (by simp [hek])]
      exact ih
    · rw [if_neg he]
      by_cases hk' : e.1 == k'
      · rw [@List.find?_cons_of_pos _ (fun q => q.1 == k') e _ hk',
          @List.find?_cons_of_pos _ (fun q => q.1 == k') e _ hk']
      · rw [@List.find?_cons_of_neg _ (fun q => q.1 == k') e _ hk',
          @List.find?_cons_of_neg _ (fun q => q.1 == k') e _ hk']
        exact ih

theorem find_append_single_ne (db : Db) (k k' : String) (v : Record) (h : k ≠ k') :
    (db ++ [(k, v)]).find? (fun p => p.1 == k') = db.find? (fun p => p.1 == k') := by
  induction db with
  | nil =>
    have hkk : (k == k') = false := by simp [h]
    simp [List.find?, hkk]
  | cons e rest ih =>
    by_cases he : e.1 == k'
    · simp [List.find?, he]
    · simp only [List.cons_append]
      simp [List.find?, he, ih]

theorem dbGet_insert_ne (db : Db) (k k' : String) (v : Record) (h : k ≠ k') :
    dbGet (dbInsert db k v) k' = dbGet db k' := by
  unfold dbInsert dbGet
  by_cases hany : db.any (fun p => p.1 == k)
  · rw [if_pos hany, find_map_ne db k k' v h]
  · rw [if_neg hany, find_append_single_ne db k k' v h]

theorem dbInsert_keys_mem (db : Db) (k : String) (v : Record)
    (h : k ∈ db.map Prod.fst) :
    (dbInsert db k v).map Prod.fst = db.map Prod.fst := by
  rw [dbInsert_keys]
  obtain ⟨p, hp, hpk⟩ := List.mem_map.mp h
  rw [if_pos (List.any_eq_true.mpr ⟨p, hp, by simp [hpk]⟩)]

theorem statusLoopFrom_spec (env : Env) (keys0 : List String)
    (hp : ∀ acc ∈ keys0, acc ≠ "Failed" →
        ∀ (qf : String) (fs' : FS), ∃ jid st2 d2,
          (get_status acc (env.pollResp acc) qf env.net fs' env.now).2
            = .ok (jid, st2, d2) ∧ jid ≠ "Failed" ∧ jid ∈ keys0) :
    ∀ (k i : Nat), keys0.length - i = k →
      ∀ (db : Db) (fs : FS), db.map Prod.fst = keys0 →
      (statusLoopFrom env keys0.length i db fs).1
        = (((keys0.drop i).filter (fun a => a != "Failed")).map
            (fun a => [Event.polled a, Event.slept env.wait])).flatten ∧
      ∃ db', (statusLoopFrom env keys0.length i db fs).2.2 = .ok db' ∧
        dbGet db' "Failed" = dbGet db "Failed" ∧ db'.map Prod.fst = keys0 := by
  intro k
  induction k with
  | zero =>
    intro i hk db fs hkeys
    have hlen : db.length = keys0.length := by
      rw [← hkeys, List.length_map]
    rw [statusLoopFrom.eq_def,
      dif_neg (by omega : ¬ db.length ≠ keys0.length),
      dif_neg (by omega : ¬ i < db.length),
      List.drop_eq_nil_of_le (by omega : keys0.length ≤ i)]
    exact ⟨rfl, db, rfl, rfl, hkeys⟩
  | succ k ih =>
    intro i hk db fs hkeys
    have hlen : db.length = keys0.length := by
      rw [← hkeys, List.length_map]
    have hi : i < db.length := by omega
    rcases hget : db[i] with ⟨key_i, fn, st0, dt0⟩
    have hdrop : keys0.drop i = key_i :: keys0.drop (i + 1) := by
      rw [← hkeys, ← List.map_drop, List.drop_eq_getElem_cons hi, hget, List.map_cons,
        List.map_drop]
    have hmem_key : key_i ∈ keys0 := by
      apply List.mem_of_mem_drop (n := i)
      rw [hdrop]
      exact List.mem_cons_self _ _
    rw [statusLoopFrom.eq_def,
      dif_neg (by omega : ¬ db.length ≠ keys0.length), dif_pos hi, hget]
    simp only []
    by_cases hf : key_i == "Failed"
    · rw [if_pos hf]
      rw [hdrop, List.filter_cons, show (key_i != "Failed") = false by simp [bne, hf],
        if_neg (by simp : ¬ false = true)]
      exact ih (i + 1) (by omega) db fs hkeys
    · rw [if_neg hf]
      have hfne : key_i ≠ "Failed" := by simpa using hf
      obtain ⟨jid, st2, d2, hok, hjid, hmem⟩ :=
        hp key_i hmem_key hfne (pyBasename fn) fs
      rcases hg : get_status key_i (env.pollResp key_i) (pyBasename fn) env.net fs
          env.now with ⟨fs2, res⟩
      rw [hg] at hok
      simp only at hok
      rw [hok]
      simp only []
      have hkeys2 : (dbInsert db jid (fn, st2, d2)).map Prod.fst = keys0 := by
        rw [dbInsert_keys_mem]
        · exact hkeys
        · rw [hkeys]; exact hmem
      obtain ⟨htr, db', hdb', hgetF, hkF⟩ :=
        ih (i + 1) (by omega) (dbInsert db jid (fn, st2, d2)) fs2 hkeys2
      constructor
      · rw [hdrop, List.filter_cons, show (key_i != "Failed") = true by simp [bne, hf],
          if_pos rfl, List.map_cons, List.flatten_cons]
        show Event.polled key_i :: Event.slept env.wait ::
            (statusLoopFrom env keys0.length (i + 1) (dbInsert db jid (fn, st2, d2)) fs2).1 = _
        rw [htr]
        rfl
      · refine ⟨db', ?_, ?_, hkF⟩
        · exact hdb'
        · rw [hgetF, dbGet_insert_ne _ _ _ _ hjid]

/-- C8: in `--get-status` mode the orchestrator polls once per ledger
entry, skipping every entry whose job id equals the sentinel "Failed"
(no poll request and no record update for such entries), with the fixed
wait applied after each poll (and not after a skip) — provided every
poll succeeds and stores a job id already present in the ledger (a
fresh job id would grow the dict mid-iteration and abort the loop with
a RuntimeError, which `statusLoopFrom` models). -/
theorem run_main_get_status_polls (env : Env) (db : Db) (fs : FS)
    (h : ∀ acc ∈ db.map Prod.fst, acc ≠ "Failed" →
        ∀ (qf : String) (fs' : FS), ∃ jid st2 d2,
          (get_status acc (env.pollResp acc) qf env.net fs' env.now).2
            = .ok (jid, st2, d2) ∧ jid ≠ "Failed" ∧ jid ∈ db.map Prod.fst) :
    (run_main env [] true db fs).1
      = (((db.map Prod.fst).filter (fun a => a != "Failed")).map
          (fun a => [Event.polled a, Event.slept env.wait])).flatten ∧
    ∃ db', (run_main env [] true db fs).2.2 = .ok db' ∧
      dbGet db' "Failed" = dbGet db "Failed" ∧
      db'.map Prod.fst = db.map Prod.fst := by
  have hrm : run_main env [] true db fs
      = statusLoopFrom env (db.map Prod.fst).length 0 db fs := by
    show statusLoop env db fs = _
    unfold statusLoop
    rw [List.length_map]
  obtain ⟨h1, db', h2, h3, h4⟩ :=
    statusLoopFrom_spec env (db.map Prod.fst) h (db.map Prod.fst).length 0
      (by omega) db fs rfl
  rw [hrm]
  rw [List.drop_zero] at h1
  exact ⟨h1, db', h2, h3, h4⟩

theorem run_main_get_status_polls_witness :
    (run_main ⟨fun _ => ⟨500, [], ""⟩, fun _ => ⟨500, [], ""⟩, fun _ => ⟨500, [], ""⟩, "t7", 10⟩
        [] true
        [("Failed", ("f0", "Submission failed", "d0")), ("J1", ("p/f1", "submitted", "d1"))]
        ⟨[], []⟩).1
      = [Event.polled "J1", Event.slept 10] := by
  have h := run_main_get_status_polls
    ⟨fun _ => ⟨500, [], ""⟩, fun _ => ⟨500, [], ""⟩, fun _ => ⟨500, [], ""⟩, "t7", 10⟩
    [("Failed", ("f0", "Submission failed", "d0")), ("J1", ("p/f1", "submitted", "d1"))]
    ⟨[], []⟩ ?_
  · exact h.1
  · intro acc hacc hne qf fs'
    simp only [List.map_cons, List.map_nil, List.mem_cons, List.not_mem_nil, or_false] at hacc
    rcases hacc with rfl | rfl
    · exact absurd rfl hne
    · exact ⟨"J1", "Get request failed", "t7", rfl, by decide, by simp⟩

theorem submitLoop_no_polled (env : Env) :
    ∀ (fastas : List String) (db : Db) (a : String),
      Event.polled a ∉ (submitLoop env fastas db).1 := by
  intro fastas
  induction fastas with
  | nil => intro db a h; simp [submitLoop] at h
  | cons f rest ih =>
    intro db a h
    rcases hs : submit_job (env.submitResp f) env.now with e | ⟨jid, st, d⟩ <;>
      simp only [submitLoop, hs] at h
    · simp at h
    · simp only [List.mem_cons] at h
      rcases h with h | h | h
      · exact absurd h (by simp)
      · exact absurd h (by simp)
      · exact ih _ a h

/-- C10: when both a non-empty `--fasta` list and `--get-status` are
given, only the submission branch runs: the result coincides with the
submission loop (for any value of the get-status flag) and no status
poll of a ledger entry occurs. -/
theorem run_main_fasta_precedence (env : Env) (fasta : List String) (gs : Bool)
    (db : Db) (fs : FS) (h : fasta ≠ []) :
    run_main env fasta gs db fs
      = ((submitLoop env fasta db).1, fs, (submitLoop env fasta db).2) ∧
    ∀ a, Event.polled a ∉ (run_main env fasta gs db fs).1 := by
  have hne : fasta.isEmpty = false := by
    cases fasta with
    | nil => exact absurd rfl h
    | cons f rest => rfl
  constructor
  · simp [run_main, hne]
  · intro a
    simp only [run_main, hne, Bool.not_false, if_pos]
    exact submitLoop_no_polled env fasta db a

theorem run_main_fasta_precedence_witness :
    run_main ⟨fun _ => ⟨200, [("job_id", "X"), ("status", "Submitted")], ""⟩,
        fun _ => ⟨500, [], ""⟩, fun _ => ⟨500, [], ""⟩, "t8", 10⟩
        ["a.fna"] true [("J1", ("p/f1", "submitted", "d1"))] ⟨[], []⟩
      = ((submitLoop ⟨fun _ => ⟨200, [("job_id", "X"), ("status", "Submitted")], ""⟩,
            fun _ => ⟨500, [], ""⟩, fun _ => ⟨500, [], ""⟩, "t8", 10⟩
            ["a.fna"] [("J1", ("p/f1", "submitted", "d1"))]).1,
         ⟨[], []⟩,
         (submitLoop ⟨fun _ => ⟨200, [("job_id", "X"), ("status", "Submitted")], ""⟩,
            fun _ => ⟨500, [], ""⟩, fun _ => ⟨500, [], ""⟩, "t8", 10⟩
            ["a.fna"] [("J1", ("p/f1", "submitted", "d1"))]).2) :=
  (run_main_fasta_precedence
    ⟨fun _ => ⟨200, [("job_id", "X"), ("status", "Submitted")], ""⟩,
      fun _ => ⟨500, [], ""⟩, fun _ => ⟨500, [], ""⟩, "t8", 10⟩
    ["a.fna"] true [("J1", ("p/f1", "submitted", "d1"))] ⟨[], []⟩ (by decide)).1

end Phaster
